import Mathlib

/-!
Verification development for the France Travail ETL pipeline
(src/etl/api/extraction.py, transformation.py, loading.py).

The Python functions are shallowly embedded as executable Lean functions.
Python values that may or may not be strings are modelled as `Option String`
(`none` stands for any non-string Python value, including `None`).
pandas DataFrames are modelled as ordered association lists of named columns.
External library operations (pandas datetime parsing, the database engine,
SQL execution) are parameters of the functions that call them.
-/

namespace ETL

/-! ### Character classes and string primitives used by transformation.py -/

/-- The Python regex class backslash-s (ASCII part), as used in transformation.py. -/
def pyWs (c : Char) : Bool :=
  c = ' ' || c = '\t' || c = '\n' || c = '\r' || c = '\x0b' || c = '\x0c'

/-- The Python regex digit class (ASCII part). -/
def isDigitC (c : Char) : Bool := c.isDigit

/-- Boolean: the first list starts with the second list. -/
def startsWith : List Char → List Char → Bool
  | _, [] => true
  | [], _ :: _ => false
  | a :: as, b :: bs => a = b && startsWith as bs

/-- Boolean: `needle` occurs as a contiguous substring of `hay` (Python `in`). -/
def containsSub : List Char → List Char → Bool
  | [], needle => needle.isEmpty
  | c :: rest, needle => startsWith (c :: rest) needle || containsSub rest needle

/-- Python `str.lower()` (ASCII part), applied character by character. -/
def pyLower (s : String) : String :=
  String.mk (s.data.map Char.toLower)

/-! ### The salary-amount regex of extract_salary_info

Python: `re.findall(r'(\d+[\s\d]*[\d,.]*)(?:\s*[€$£]|\s*euros?|\s*euro)', text)`.
The matcher below implements exactly this pattern with the backtracking
(greedy, longest-first) semantics of the `re` module. -/

/-- All splits `(consumed, rest)` of a leading run of characters satisfying `p`,
longest first: the order in which a backtracking regex engine tries a greedy
star over a character class. -/
def greedySplits (p : Char → Bool) : List Char → List (List Char × List Char)
  | [] => [([], [])]
  | c :: rest =>
    if p c then
      (greedySplits p rest).map (fun pr => (c :: pr.1, pr.2)) ++ [([], c :: rest)]
    else [([], c :: rest)]

def isCurrencySym (c : Char) : Bool := c = '€' || c = '$' || c = '£'

/-- The tail alternation of the salary regex. The third alternative of the
source pattern, backslash-s star followed by "euro", is subsumed by the
optional-s branch of the second and can never fire on its own. -/
def matchCurrencyTail (l : List Char) : Option (List Char) :=
  match (greedySplits pyWs l).findSome? (fun pr =>
      match pr.2 with
      | c :: rest => if isCurrencySym c then some rest else none
      | [] => none) with
  | some r => some r
  | none =>
    (greedySplits pyWs l).findSome? (fun pr =>
      if startsWith pr.2 ['e', 'u', 'r', 'o', 's'] then some (pr.2.drop 5)
      else if startsWith pr.2 ['e', 'u', 'r', 'o'] then some (pr.2.drop 4)
      else none)

/-- Attempt to match the salary pattern anchored at the head of `l`.
Returns `(group 1 text, rest of the input after the whole match)`. -/
def matchAmountAt (l : List Char) : Option (List Char × List Char) :=
  (greedySplits isDigitC l).findSome? fun d1 =>
    if d1.1.isEmpty then none
    else
      (greedySplits (fun c => pyWs c || isDigitC c) d1.2).findSome? fun d2 =>
        (greedySplits (fun c => isDigitC c || c = ',' || c = '.') d2.2).findSome? fun d3 =>
          (matchCurrencyTail d3.2).map fun rest => (d1.1 ++ d2.1 ++ d3.1, rest)

/-- `re.findall` scan: try to match at each position, left to right,
non-overlapping, resuming after each match. Every successful match consumes
at least one character, so fuel equal to the input length suffices. -/
def findAmountsAux : Nat → List Char → List (List Char)
  | 0, _ => []
  | _ + 1, [] => []
  | fuel + 1, c :: rest =>
    match matchAmountAt (c :: rest) with
    | some (g, rest2) => g :: findAmountsAux fuel rest2
    | none => findAmountsAux fuel rest

/-- All group-1 captures of the salary regex over `l`, in scan order. -/
def findAmounts (l : List Char) : List (List Char) :=
  findAmountsAux l.length l

/-! ### Amount parsing: float(re.sub(r'[^\d.]', '', amount.replace(',', '.'))) -/

def digitsToNat (l : List Char) : Nat :=
  l.foldl (fun n c => 10 * n + (c.toNat - '0'.toNat)) 0

/-- Python `float()` on a string made only of digits and dots (the only strings
that reach it in extract_salary_info after the cleanup substitution):
it succeeds iff there is at most one dot and at least one digit. -/
def floatOfDigitsDots (l : List Char) : Option ℚ :=
  if l.isEmpty then none
  else if 1 < l.count '.' then none
  else
    let intPart := l.takeWhile (fun c => c ≠ '.')
    let frac := (l.dropWhile (fun c => c ≠ '.')).drop 1
    if intPart.isEmpty && frac.isEmpty then none
    else some ((digitsToNat intPart : ℚ) + (digitsToNat frac : ℚ) / (10 ^ frac.length))

/-- `amount.replace(',', '.')` followed by `re.sub(r'[^\d.]', '', …)`. -/
def cleanAmount (g : List Char) : List Char :=
  (g.map fun c => if c = ',' then '.' else c).filter fun c => isDigitC c || c = '.'

/-- The numeric value Python would obtain from one captured token, `none` when
`float()` would raise `ValueError`. -/
def parseAmount (g : List Char) : Option ℚ :=
  floatOfDigitsDots (cleanAmount g)

/-! ### extract_salary_info -/

structure SalaryInfo where
  min_salary : Option ℚ
  max_salary : Option ℚ
  periodicity : Option String
  currency : String
deriving DecidableEq, Repr

/-- The min/max selection of extract_salary_info (source lines 87-97).
With two or more tokens the two `float()` calls run inside one `try` block in
sequence: a failure on the first token leaves both values unset, a failure on
the second leaves the already-assigned minimum in place. -/
def salaryMinMax : List (List Char) → Option ℚ × Option ℚ
  | a0 :: _a1 :: _ =>
    (match parseAmount a0 with
     | none => (none, none)
     | some v0 =>
       match parseAmount _a1 with
       | none => (some v0, none)
       | some v1 => (some v0, some v1))
  | [a0] =>
    (match parseAmount a0 with
     | none => (none, none)
     | some v0 => (some v0, none))
  | [] => (none, none)

def pickPeriodicity (lower : List Char) : Option String :=
  if containsSub lower "annuel".data || containsSub lower "par an".data then some "yearly"
  else if containsSub lower "mensuel".data || containsSub lower "par mois".data then some "monthly"
  else if containsSub lower "horaire".data || containsSub lower "de l\x27heure".data then
    some "hourly"
  else some "monthly"

def pickCurrency (s : String) : String :=
  if containsSub s.data ['£'] then "GBP"
  else if containsSub s.data ['$'] then "USD"
  else "EUR"

/-- Embedding of `extract_salary_info` (transformation.py, lines 48-99).
`none` input stands for any non-string Python value. -/
def extract_salary_info (salary_text : Option String) : SalaryInfo :=
  match salary_text with
  | none => ⟨none, none, none, "EUR"⟩
  | some s =>
    if s = "" then ⟨none, none, none, "EUR"⟩
    else
      let lower := (pyLower s)
      let mm := salaryMinMax (findAmounts lower.data)
      ⟨mm.1, mm.2, pickPeriodicity lower.data, pickCurrency s⟩

/-! ### categorize_contract_type -/

/-- Embedding of `categorize_contract_type` (transformation.py, lines 101-133). -/
def categorize_contract_type (contract_text : Option String) : String :=
  match contract_text with
  | none => "UNKNOWN"
  | some s =>
    let t := (pyLower s).data
    if containsSub t "cdi".data then "CDI"
    else if containsSub t "cdd".data then "CDD"
    else if containsSub t "intérim".data || containsSub t "interim".data then "INTERIM"
    else if containsSub t "apprentissage".data then "APPRENTICESHIP"
    else if containsSub t "stage".data then "INTERNSHIP"
    else if containsSub t "freelance".data || containsSub t "indépendant".data then "FREELANCE"
    else if containsSub t "temps partiel".data then "PART_TIME"
    else if containsSub t "temps plein".data then "FULL_TIME"
    else "OTHER"

/-- The fixed ordered marker table of the spec: marker variants paired with the
standardized contract type, in the priority order of the source if-chain. -/
def contractMarkers : List (List String × String) :=
  [(["cdi"], "CDI"), (["cdd"], "CDD"), (["intérim", "interim"], "INTERIM"),
   (["apprentissage"], "APPRENTICESHIP"), (["stage"], "INTERNSHIP"),
   (["freelance", "indépendant"], "FREELANCE"), (["temps partiel"], "PART_TIME"),
   (["temps plein"], "FULL_TIME")]

/-- The classifier as the spec words it: first marker group found in the
lowercased text wins, no match gives OTHER, non-string gives UNKNOWN. -/
def classify_contract_type_spec (contract_text : Option String) : String :=
  match contract_text with
  | none => "UNKNOWN"
  | some s =>
    match contractMarkers.find?
        (fun m => m.1.any fun t => containsSub (pyLower s).data t.data) with
    | some m => m.2
    | none => "OTHER"

/-! ### clean_text_field -/

/-- Scan for the closing `>` of a lazy `<.*?>` match; `.` does not match a
newline, so a newline before the first `>` kills the match. -/
def findTagEnd : List Char → Option (List Char)
  | [] => none
  | '>' :: rest => some rest
  | '\n' :: _ => none
  | _ :: rest => findTagEnd rest

/-- `re.sub(r'<.*?>', ' ', text)`: each leftmost-shortest tag is replaced by a
single space. Fuel equal to the input length suffices (every step consumes at
least one character). -/
def subTags : Nat → List Char → List Char
  | 0, l => l
  | _ + 1, [] => []
  | fuel + 1, '<' :: rest =>
    (match findTagEnd rest with
     | some rest2 => ' ' :: subTags fuel rest2
     | none => '<' :: subTags fuel rest)
  | fuel + 1, c :: rest => c :: subTags fuel rest

/-- `re.sub(r'\s+', ' ', text)`: each maximal whitespace run becomes one space. -/
def collapseWs : Nat → List Char → List Char
  | 0, l => l
  | _ + 1, [] => []
  | fuel + 1, c :: rest =>
    if pyWs c then ' ' :: collapseWs fuel (rest.dropWhile pyWs)
    else c :: collapseWs fuel rest

/-- Python `str.strip()` (ASCII whitespace part). -/
def pyStrip (l : List Char) : List Char :=
  ((l.dropWhile pyWs).reverse.dropWhile pyWs).reverse

/-- Embedding of `clean_text_field` (transformation.py, lines 26-46). -/
def clean_text_field (text : Option String) : String :=
  match text with
  | none => ""
  | some s =>
    let l1 := subTags s.data.length s.data
    let l2 := collapseWs l1.length l1
    String.mk (pyStrip l2)

/-! ### extract_experience_level -/

def entryTerms : List String := ["débutant", "junior", "0-2 ans", "0 à 2 ans"]
def midTerms : List String := ["confirmé", "2-5 ans", "2 à 5 ans", "3 ans"]
def seniorTerms : List String := ["senior", "5-10 ans", "5 à 10 ans", "expérimenté"]
def expertTerms : List String := ["expert", "+ de 10 ans", "plus de 10 ans"]

/-- Embedding of `extract_experience_level` (transformation.py, lines 135-159). -/
def extract_experience_level (description : Option String) : String :=
  match description with
  | none => "NOT_SPECIFIED"
  | some s =>
    let d := (pyLower s).data
    if entryTerms.any (fun t => containsSub d t.data) then "ENTRY"
    else if midTerms.any (fun t => containsSub d t.data) then "MID"
    else if seniorTerms.any (fun t => containsSub d t.data) then "SENIOR"
    else if expertTerms.any (fun t => containsSub d t.data) then "EXPERT"
    else "NOT_SPECIFIED"

/-! ### extract_keywords -/

/-- The default keyword vocabulary of extract_keywords, verbatim from the
source (the C++ entry is the Python string `c\+\+`, a regex escape). -/
def defaultKeywords : List String :=
  ["python", "java", "javascript", "c\\+\\+", "c#", "php", "ruby", "swift",
   "django", "flask", "spring", "react", "angular", "vue", "laravel",
   "sql", "postgresql", "mysql", "mongodb", "oracle", "sqlite",
   "aws", "azure", "gcp", "cloud",
   "data science", "machine learning", "deep learning", "ai", "big data",
   "devops", "docker", "kubernetes", "jenkins", "git", "ci/cd"]

/-- Strip regex escapes: the literal text a keyword pattern matches.
All default keywords are literal after unescaping. -/
def regexLiteral : List Char → List Char
  | [] => []
  | '\\' :: c :: rest => c :: regexLiteral rest
  | c :: rest => c :: regexLiteral rest

/-- Python regex word character (ASCII part). -/
def isWordChar (c : Char) : Bool := c.isAlphanum || c = '_'

/-- A word boundary sits between two positions iff exactly one side is a word
character (out of bounds counts as non-word). -/
def boundaryBetween (a b : Option Char) : Bool :=
  (match a with | some c => isWordChar c | none => false)
    != (match b with | some c => isWordChar c | none => false)

def kwMatchHere (lit : List Char) (prev : Option Char) (t : List Char) : Bool :=
  startsWith t lit && boundaryBetween prev t.head? &&
    boundaryBetween lit.getLast? (t.drop lit.length).head?

def kwSearchAux (lit : List Char) : Option Char → List Char → Bool
  | _, [] => false
  | prev, c :: rest => kwMatchHere lit prev (c :: rest) || kwSearchAux lit (some c) rest

/-- `re.search(r'\b' + keyword + r'\b', text)` as a Boolean. -/
def kwSearch (lit : List Char) (l : List Char) : Bool :=
  kwSearchAux lit none l

/-- Embedding of `extract_keywords` (transformation.py, lines 223-264).
`keyword_list = none` selects the default vocabulary, as in the source. -/
def extract_keywords (description : Option String) (keyword_list : Option (List String)) :
    List String :=
  match description with
  | none => []
  | some s =>
    if s = "" then []
    else
      let kws := keyword_list.getD defaultKeywords
      let lower := (pyLower s).data
      kws.filter fun kw => kwSearch (regexLiteral kw.data) lower

/-! ### Record extraction (extraction.py)

A raw posting is modelled by its natural identifier, as read by
`offer.get('id')`, plus an abstract payload distinguishing postings.
`id = none` stands for a missing key or a Python `None`; the empty string is
the other falsy identifier value. -/

structure Offer where
  id : Option String
  payload : Nat
deriving DecidableEq, Repr

/-- One iteration of the dedup loop of `extract_jobs_to_dataframe`
(extraction.py, lines 246-253): the state is the `job_ids` seen-set together
with the accumulated `all_offers` list. An offer is appended only when its id
is truthy and not yet seen. -/
def dedupStep (st : List String × List Offer) (o : Offer) : List String × List Offer :=
  match o.id with
  | none => st
  | some i => if i ≠ "" ∧ i ∉ st.1 then (i :: st.1, st.2 ++ [o]) else st

/-- Embedding of `extract_jobs_to_dataframe` (extraction.py, lines 224-262).
Each batch file is represented by the posting list its `resultats` field
yields. The function returns `none` when no offer survives the loop. -/
def extract_jobs_to_dataframe (batches : List (List Offer)) : Option (List Offer) :=
  let st := batches.flatten.foldl dedupStep ([], [])
  if st.2 = [] then none else some st.2

/-- The unified set as the spec words it (build_unified_set): walk the
postings in batch order, keep a posting iff its id is truthy and not already
in the seen-set; first write wins. -/
def build_unified_set (seen : List String) : List Offer → List Offer
  | [] => []
  | o :: rest =>
    match o.id with
    | none => build_unified_set seen rest
    | some i =>
      if i ≠ "" ∧ i ∉ seen then o :: build_unified_set (i :: seen) rest
      else build_unified_set seen rest

/-- The natural ids present in a list of offers. -/
def offerIds (l : List Offer) : List String :=
  l.filterMap Offer.id

/-! ### The DataFrame model

A DataFrame is an ordered association list of named columns; a cell is a
typed scalar or an explicit null. -/

inductive Cell where
  | null : Cell
  | str : String → Cell
  | rat : ℚ → Cell
  | nat : Nat → Cell
  | strList : List String → Cell
deriving DecidableEq, Repr

structure DataFrame where
  cols : List (String × List Cell)
deriving DecidableEq, Repr

/-- `df[name]`: the first column carrying the name. -/
def getCol (d : DataFrame) (n : String) : Option (List Cell) :=
  (d.cols.find? fun c => c.1 == n).map (·.2)

/-- `name in df.columns`. -/
def hasCol (d : DataFrame) (n : String) : Bool :=
  d.cols.any fun c => c.1 == n

/-- `df[name] = values`: replace the column in place when present, append it
otherwise (pandas assignment). -/
def setCol (d : DataFrame) (n : String) (v : List Cell) : DataFrame :=
  if hasCol d n then ⟨d.cols.map fun c => if c.1 == n then (n, v) else c⟩
  else ⟨d.cols ++ [(n, v)]⟩

/-- `len(df)`: the row count, read off the first column. -/
def nRows (d : DataFrame) : Nat :=
  match d.cols with
  | [] => 0
  | c :: _ => c.2.length

/-- The string carried by a cell, `none` for any non-string cell: the shape a
Python `isinstance(x, str)` test sees. -/
def cellStr : Cell → Option String
  | .str s => some s
  | _ => none

/-- The frame has at least one column named `n` and every column named `n`
carries exactly the cells `v`. -/
def HasColVal (d : DataFrame) (n : String) (v : List Cell) : Prop :=
  hasCol d n = true ∧ ∀ c ∈ d.cols, c.1 = n → c.2 = v

/-! ### apply_keyword_analysis (transformation.py, lines 266-294) -/

def mainTechs : List String :=
  ["python", "java", "javascript", "sql", "aws", "machine learning"]

/-- `tech.replace(" ", "_")`: the pattern is a single character, so the
replacement is a character map. -/
def pyReplaceSpace (t : String) : String :=
  String.mk (t.data.map fun c => if c = ' ' then '_' else c)

/-- `f'has_{tech.replace(" ", "_")}'`. -/
def techColName (t : String) : String :=
  "has_" ++ pyReplaceSpace t

/-- The `extracted_keywords` column derived from the cleaned descriptions. -/
def kwCells (col : List Cell) : List Cell :=
  col.map fun c => Cell.strList (extract_keywords (cellStr c) none)

/-- `1 if tech in x else 0` over the keyword-list column. -/
def cellHasKw (c : Cell) (t : String) : Bool :=
  match c with
  | .strList l => l.contains t
  | _ => false

def flagCells (kcol : List Cell) (t : String) : List Cell :=
  kcol.map fun c => Cell.nat (if cellHasKw c t then 1 else 0)

/-- `len(x)` over the keyword-list column; only list cells occur there. -/
def countCell : Cell → Cell
  | .strList l => Cell.nat l.length
  | _ => Cell.null

/-- The per-technology flag loop: each iteration re-reads the
`extracted_keywords` column of the evolving frame, as the source does. -/
def applyTechs (techs : List String) (d : DataFrame) : DataFrame :=
  techs.foldl (fun acc t =>
    setCol acc (techColName t) (flagCells ((getCol acc "extracted_keywords").getD []) t)) d

/-- Embedding of `apply_keyword_analysis` (transformation.py, lines 266-294). -/
def apply_keyword_analysis (df : Option DataFrame) : Option DataFrame :=
  match df with
  | none => none
  | some d =>
    match getCol d "description_clean" with
    | none => some d
    | some descCol =>
      let d1 := setCol d "extracted_keywords" (kwCells descCol)
      let d2 := applyTechs mainTechs d1
      let d3 := setCol d2 "keyword_count"
        (((getCol d2 "extracted_keywords").getD []).map countCell)
      some d3

/-! ### transform_job_dataframe (transformation.py, lines 161-221)

The pandas datetime conversion `pd.to_datetime(col, errors='coerce')
.dt.strftime('%Y-%m-%d')` is an external library operation, abstracted as a
cell-level parameter `toIso`; the wall clock read for `etl_timestamp` is the
parameter `now`. -/

def requiredColumns : List String := ["id", "intitule", "description", "dateCreation"]

def textColumns : List String := ["intitule", "description", "lieuTravail", "entreprise"]

def rawDateColumns : List String := ["dateCreation", "dateActualisation"]

/-- `lambda x: clean_text_field(x) if isinstance(x, str) else x`. -/
def cleanCell : Cell → Cell
  | .str s => .str (clean_text_field (some s))
  | c => c

def optRatCell : Option ℚ → Cell
  | none => Cell.null
  | some q => Cell.rat q

def optStrCell : Option String → Cell
  | none => Cell.null
  | some s => Cell.str s

def transform_job_dataframe (toIso : Cell → Cell) (now : String) (df : Option DataFrame) :
    Option DataFrame :=
  match df with
  | none => none
  | some d =>
    if nRows d = 0 then none
    else
      let r1 := requiredColumns.foldl (fun acc c =>
        if hasCol acc c then acc
        else setCol acc c (List.replicate (nRows d) Cell.null)) d
      let r2 := textColumns.foldl (fun acc c =>
        if hasCol acc c then
          setCol acc (c ++ "_clean") (((getCol acc c).getD []).map cleanCell)
        else acc) r1
      let r3 :=
        if hasCol r2 "salaire" then
          let infos := ((getCol r2 "salaire").getD []).map fun c =>
            extract_salary_info (cellStr c)
          let a := setCol r2 "min_salary" (infos.map fun si => optRatCell si.min_salary)
          let b := setCol a "max_salary" (infos.map fun si => optRatCell si.max_salary)
          let c2 := setCol b "salary_periodicity" (infos.map fun si => optStrCell si.periodicity)
          setCol c2 "currency" (infos.map fun si => Cell.str si.currency)
        else r2
      let r4 :=
        if hasCol r3 "typeContrat" then
          setCol r3 "contract_type_std" (((getCol r3 "typeContrat").getD []).map fun c =>
            Cell.str (categorize_contract_type (cellStr c)))
        else r3
      let r5 :=
        if hasCol r4 "description" then
          setCol r4 "experience_level" (((getCol r4 "description").getD []).map fun c =>
            Cell.str (extract_experience_level (cellStr c)))
        else r4
      let r6 := rawDateColumns.foldl (fun acc c =>
        if hasCol acc c then
          setCol acc (c ++ "_iso") (((getCol acc c).getD []).map toIso)
        else acc) r5
      let r7 := setCol r6 "etl_timestamp" (List.replicate (nRows d) (Cell.str now))
      some r7

/-! ### Loading (loading.py)

The database engine is opaque; SQL connectivity, DDL execution and the bulk
insert are parameters standing for the external store. -/

structure Engine where
  eid : Nat
deriving DecidableEq, Repr

/-- The fixed source-to-target column mapping of
`prepare_job_data_for_loading` (loading.py, lines 142-165). -/
def column_mapping : List (String × String) :=
  [("id", "id"), ("intitule", "intitule"), ("description_clean", "description_clean"),
   ("entreprise_clean", "entreprise_clean"), ("lieuTravail", "lieu_travail"),
   ("typeContrat", "type_contrat"), ("contract_type_std", "contract_type_std"),
   ("experience_level", "experience_level"), ("min_salary", "min_salary"),
   ("max_salary", "max_salary"), ("salary_periodicity", "salary_periodicity"),
   ("currency", "currency"), ("dateCreation_iso", "date_creation"),
   ("dateActualisation_iso", "date_actualisation"), ("keyword_count", "keyword_count"),
   ("has_python", "has_python"), ("has_java", "has_java"),
   ("has_javascript", "has_javascript"), ("has_sql", "has_sql"), ("has_aws", "has_aws"),
   ("has_machine_learning", "has_machine_learning"), ("etl_timestamp", "etl_timestamp")]

/-- The persisted columns converted with `pd.to_datetime(col, errors='coerce')`. -/
def dateColumnsLoad : List String := ["date_creation", "date_actualisation", "etl_timestamp"]

/-- The missing-target fill loop: `result_df[target_col] = None` for every
target column absent from the evolving frame. -/
def fillMissing (n : Nat) (maps : List (String × String)) (acc : DataFrame) : DataFrame :=
  maps.foldl (fun a kv =>
    if hasCol a kv.2 then a else setCol a kv.2 (List.replicate n Cell.null)) acc

/-- The datetime coercion loop over the three persisted date columns. -/
def applyDates (toDT : Cell → Cell) (cols : List String) (acc : DataFrame) : DataFrame :=
  cols.foldl (fun a c =>
    if hasCol a c then setCol a c (((getCol a c).getD []).map toDT) else a) acc

/-- Embedding of `prepare_job_data_for_loading` (loading.py, lines 124-192).
`toDT` abstracts `pd.to_datetime(col, errors='coerce')`. -/
def prepare_job_data_for_loading (toDT : Cell → Cell) (df : Option DataFrame) :
    Option DataFrame :=
  match df with
  | none => none
  | some d =>
    if nRows d = 0 then none
    else
      let keep := column_mapping.filter fun kv => hasCol d kv.1
      if keep = [] then none
      else
        let selected : DataFrame := ⟨keep.map fun kv => (kv.2, (getCol d kv.1).getD [])⟩
        let filled := fillMissing (nRows d) column_mapping selected
        let withSource := setCol filled "source"
          (List.replicate (nRows d) (Cell.str "FRANCE_TRAVAIL"))
        some (applyDates toDT dateColumnsLoad withSource)

/-- Embedding of `create_jobs_table` (loading.py, lines 61-122): `false` when
there is no connection, otherwise the outcome of the external DDL round trip. -/
def create_jobs_table (ddl : Engine → Bool) (engine : Option Engine) : Bool :=
  match engine with
  | none => false
  | some e => ddl e

/-- Embedding of `load_jobs_to_database` (loading.py, lines 194-226): `0` on a
missing frame or connection or on a failed bulk insert, the row count
otherwise. `toSql` abstracts the `df.to_sql` round trip. -/
def load_jobs_to_database (toSql : DataFrame → Engine → Bool) (df : Option DataFrame)
    (engine : Option Engine) : Nat :=
  match df, engine with
  | some d, some e => if toSql d e then nRows d else 0
  | _, _ => 0

/-- Embedding of `execute_etl_pipeline` (loading.py, lines 228-290). The
extraction result (`raw`) and the connection attempt (`engine`) stand for the
two I/O boundaries `extract_by_date_range` and `get_db_connection`. -/
def execute_etl_pipeline (toIso : Cell → Cell) (now : String) (toDT : Cell → Cell)
    (raw : Option DataFrame) (engine : Option Engine) (ddl : Engine → Bool)
    (toSql : DataFrame → Engine → Bool) : Nat :=
  match raw with
  | none => 0
  | some rdf =>
    let t1 := transform_job_dataframe toIso now (some rdf)
    let t2 := match t1 with
      | some tdf => apply_keyword_analysis (some tdf)
      | none => none
    match t2 with
    | none => 0
    | some tdf =>
      match prepare_job_data_for_loading toDT (some tdf) with
      | none => 0
      | some ldf =>
        match engine with
        | none => 0
        | some e =>
          if create_jobs_table ddl (some e) then
            load_jobs_to_database toSql (some ldf) (some e)
          else 0

/-! ## Lemmas about the extraction dedup loop -/

theorem foldl_dedupStep_eq (l : List Offer) :
    ∀ (seen : List String) (acc : List Offer),
      (l.foldl dedupStep (seen, acc)).2 = acc ++ build_unified_set seen l := by
  induction l with
  | nil => intro seen acc; simp [build_unified_set]
  | cons o rest ih =>
    intro seen acc
    simp only [List.foldl_cons, build_unified_set]
    cases h : o.id with
    | none => simp [dedupStep, h, ih]
    | some i =>
      by_cases hc : i ≠ "" ∧ i ∉ seen
      · simp [dedupStep, h, hc, ih]
      · simp [dedupStep, h, hc, ih]

theorem extract_jobs_eq_build (batches : List (List Offer)) :
    extract_jobs_to_dataframe batches =
      (if build_unified_set [] batches.flatten = [] then none
       else some (build_unified_set [] batches.flatten)) := by
  unfold extract_jobs_to_dataframe
  simp [foldl_dedupStep_eq]

theorem build_unified_mem :
    ∀ (l : List Offer) (seen : List String) (o : Offer),
      o ∈ build_unified_set seen l → o ∈ l := by
  intro l
  induction l with
  | nil => intro seen o h; simp [build_unified_set] at h
  | cons p rest ih =>
    intro seen o h
    cases hp : p.id with
    | none =>
      simp only [build_unified_set, hp] at h
      exact List.mem_cons_of_mem p (ih seen o h)
    | some i =>
      by_cases hc : i ≠ "" ∧ i ∉ seen
      · simp only [build_unified_set, hp, if_pos hc, List.mem_cons] at h
        rcases h with h | h
        · exact h ▸ List.mem_cons_self p rest
        · exact List.mem_cons_of_mem p (ih (i :: seen) o h)
      · simp only [build_unified_set, hp, if_neg hc] at h
        exact List.mem_cons_of_mem p (ih seen o h)

theorem build_unified_truthy :
    ∀ (l : List Offer) (seen : List String) (o : Offer),
      o ∈ build_unified_set seen l →
      ∃ i, o.id = some i ∧ i ≠ "" ∧ i ∉ seen := by
  intro l
  induction l with
  | nil => intro seen o h; simp [build_unified_set] at h
  | cons p rest ih =>
    intro seen o h
    cases hp : p.id with
    | none =>
      simp only [build_unified_set, hp] at h
      exact ih seen o h
    | some i =>
      by_cases hc : i ≠ "" ∧ i ∉ seen
      · simp only [build_unified_set, hp, if_pos hc, List.mem_cons] at h
        rcases h with h | h
        · exact ⟨i, h ▸ hp, hc⟩
        · obtain ⟨j, hj, hne, hnot⟩ := ih (i :: seen) o h
          exact ⟨j, hj, hne, fun hmem => hnot (List.mem_cons_of_mem i hmem)⟩
      · simp only [build_unified_set, hp, if_neg hc] at h
        exact ih seen o h

theorem build_unified_nodup :
    ∀ (l : List Offer) (seen : List String),
      (offerIds (build_unified_set seen l)).Nodup ∧
      ∀ i ∈ offerIds (build_unified_set seen l), i ∉ seen := by
  intro l
  induction l with
  | nil => intro seen; simp [build_unified_set, offerIds]
  | cons p rest ih =>
    intro seen
    cases hp : p.id with
    | none => simpa only [build_unified_set, hp] using ih seen
    | some i =>
      by_cases hc : i ≠ "" ∧ i ∉ seen
      · obtain ⟨hnd, hout⟩ := ih (i :: seen)
        simp only [build_unified_set, hp, if_pos hc, offerIds, List.filterMap_cons, hp]
        constructor
        · refine List.nodup_cons.mpr ⟨fun hmem => ?_, hnd⟩
          exact (hout i hmem) (List.mem_cons_self i seen)
        · intro j hj
          rcases List.mem_cons.mp hj with h | h
          · exact h ▸ hc.2
          · exact fun hmem => hout j h (List.mem_cons_of_mem i hmem)
      · simpa only [build_unified_set, hp, if_neg hc] using ih seen

theorem build_unified_find :
    ∀ (l : List Offer) (seen : List String) (o : Offer) (i : String),
      o ∈ build_unified_set seen l → o.id = some i →
      l.find? (fun p => p.id == some i) = some o := by
  intro l
  induction l with
  | nil => intro seen o i h; simp [build_unified_set] at h
  | cons p rest ih =>
    intro seen o i hmem hid
    cases hp : p.id with
    | none =>
      simp only [build_unified_set, hp] at hmem
      rw [List.find?_cons_of_neg _ (by simp [hp])]
      exact ih seen o i hmem hid
    | some j =>
      by_cases hc : j ≠ "" ∧ j ∉ seen
      · simp only [build_unified_set, hp, if_pos hc, List.mem_cons] at hmem
        rcases hmem with he | hmem2
        · subst he
          rw [hp] at hid
          rw [List.find?_cons_of_pos _ (by simp [hp, hid])]
        · obtain ⟨i2, hi2, hne2, hnot2⟩ := build_unified_truthy rest (j :: seen) o hmem2
          rw [hid] at hi2
          have hij : i = i2 := by injection hi2
          subst hij
          have hji : j ≠ i := fun he => hnot2 (he ▸ List.mem_cons_self j seen)
          rw [List.find?_cons_of_neg _ (by simp [hp, hji])]
          exact ih (j :: seen) o i hmem2 hid
      · simp only [build_unified_set, hp, if_neg hc] at hmem
        obtain ⟨i2, hi2, hne2, hnot2⟩ := build_unified_truthy rest seen o hmem
        rw [hid] at hi2
        have hij : i = i2 := by injection hi2
        subst hij
        have hji : j ≠ i := by
          intro he
          subst he
          rcases not_and_or.mp hc with h | h
          · exact hne2 (not_not.mp h)
          · exact hnot2 (not_not.mp h)
        rw [List.find?_cons_of_neg _ (by simp [hp, hji])]
        exact ih seen o i hmem hid

theorem build_unified_complete :
    ∀ (l : List Offer) (seen : List String) (i : String),
      i ≠ "" → i ∉ seen → (∃ o ∈ l, o.id = some i) →
      ∃ p ∈ build_unified_set seen l, p.id = some i := by
  intro l
  induction l with
  | nil => intro seen i _ _ h; simp at h
  | cons p rest ih =>
    intro seen i hne hnot hex
    obtain ⟨o, ho, hid⟩ := hex
    cases hp : p.id with
    | none =>
      have ho' : o ∈ rest := by
        rcases List.mem_cons.mp ho with he | h
        · exact absurd (he ▸ hid) (by simp [hp])
        · exact h
      simp only [build_unified_set, hp]
      exact ih seen i hne hnot ⟨o, ho', hid⟩
    | some j =>
      by_cases hc : j ≠ "" ∧ j ∉ seen
      · simp only [build_unified_set, hp, if_pos hc]
        by_cases hji : j = i
        · exact ⟨p, List.mem_cons_self p _, by rw [hp, hji]⟩
        · have ho' : o ∈ rest := by
            rcases List.mem_cons.mp ho with he | h
            · subst he; rw [hp] at hid; exact absurd (Option.some.inj hid) hji
            · exact h
          obtain ⟨q, hq, hqid⟩ := ih (j :: seen) i hne
            (by simp [hnot, Ne.symm hji]) ⟨o, ho', hid⟩
          exact ⟨q, List.mem_cons_of_mem p hq, hqid⟩
      · have hji : j ≠ i := by
          intro he
          subst he
          rcases not_and_or.mp hc with h | h
          · exact hne (not_not.mp h)
          · exact hnot (not_not.mp h)
        have ho' : o ∈ rest := by
          rcases List.mem_cons.mp ho with he | h
          · subst he; rw [hp] at hid; exact absurd (Option.some.inj hid) hji
          · exact h
        simp only [build_unified_set, hp, if_neg hc]
        exact ih seen i hne hnot ⟨o, ho', hid⟩

/-! ## Claim theorems (extraction) -/

/-- C1: extract_jobs_to_dataframe builds the unified set by first write wins:
it equals the spec-level build_unified_set over the batches in the supplied
order; any returned dataset is nonempty, holds at most one posting per
natural ID, each kept posting is the first occurrence of its ID in
batch-iteration order (so later duplicates are dropped unmerged), every
truthy ID found in the batches is represented, and zero postings across all
batches yields none. -/
theorem extract_jobs_first_write_wins (batches : List (List Offer)) :
    (extract_jobs_to_dataframe batches =
       (if build_unified_set [] batches.flatten = [] then none
        else some (build_unified_set [] batches.flatten)))
    ∧ (∀ l, extract_jobs_to_dataframe batches = some l →
        l ≠ [] ∧ (offerIds l).Nodup ∧
        (∀ o ∈ l, o ∈ batches.flatten) ∧
        (∀ o ∈ l, ∀ i, o.id = some i →
          batches.flatten.find? (fun p => p.id == some i) = some o) ∧
        (∀ o ∈ batches.flatten, ∀ i, o.id = some i → i ≠ "" →
          ∃ p ∈ l, p.id = some i))
    ∧ (batches.flatten = [] → extract_jobs_to_dataframe batches = none) := by
  refine ⟨extract_jobs_eq_build batches, ?_, ?_⟩
  · intro l hl
    rw [extract_jobs_eq_build] at hl
    by_cases hb : build_unified_set [] batches.flatten = []
    · simp [hb] at hl
    · rw [if_neg hb] at hl
      have hl' : build_unified_set [] batches.flatten = l := by injection hl
      subst hl'
      refine ⟨hb, (build_unified_nodup _ _).1,
        fun o ho => build_unified_mem _ _ o ho,
        fun o ho i hi => build_unified_find _ _ o i ho hi,
        fun o ho i hi hne => build_unified_complete _ _ i hne (by simp) ⟨o, ho, hi⟩⟩
  · intro hnil
    rw [extract_jobs_eq_build, hnil]
    simp [build_unified_set]

/-- C1 witness: two batches with a duplicate natural ID keep only the first
occurrence. -/
theorem extract_jobs_first_write_wins_witness :
    extract_jobs_to_dataframe [[⟨some "a", 0⟩, ⟨some "a", 1⟩], [⟨some "b", 2⟩]] =
      some [⟨some "a", 0⟩, ⟨some "b", 2⟩] ∧
    (offerIds [⟨some "a", 0⟩, ⟨some "b", 2⟩]).Nodup := by
  have h := (extract_jobs_first_write_wins
      [[⟨some "a", 0⟩, ⟨some "a", 1⟩], [⟨some "b", 2⟩]]).2.1
      [⟨some "a", 0⟩, ⟨some "b", 2⟩] (by decide)
  exact ⟨by decide, h.2.1⟩

/-- C9: a posting with a missing, None or empty-string natural ID never
reaches the unified dataset, and batches holding only such postings give
none, exactly as if no posting had been found. -/
theorem extract_jobs_drops_falsy_ids (batches : List (List Offer)) :
    (∀ l, extract_jobs_to_dataframe batches = some l →
       ∀ o ∈ l, o.id ≠ none ∧ o.id ≠ some "")
    ∧ ((∀ o ∈ batches.flatten, o.id = none ∨ o.id = some "") →
       extract_jobs_to_dataframe batches = none) := by
  constructor
  · intro l hl o ho
    rw [extract_jobs_eq_build] at hl
    by_cases hb : build_unified_set [] batches.flatten = []
    · simp [hb] at hl
    · rw [if_neg hb] at hl
      have hl' : build_unified_set [] batches.flatten = l := by injection hl
      subst hl'
      obtain ⟨i, hi, hne, -⟩ := build_unified_truthy _ _ o ho
      exact ⟨by simp [hi], by simp [hi, hne]⟩
  · intro hall
    rw [extract_jobs_eq_build]
    have hb : build_unified_set [] batches.flatten = [] := by
      cases h : build_unified_set [] batches.flatten with
      | nil => rfl
      | cons p t =>
        have hp : p ∈ build_unified_set [] batches.flatten := by
          rw [h]; exact List.mem_cons_self p t
        obtain ⟨i, hi, hne, -⟩ := build_unified_truthy _ _ p hp
        rcases hall p (build_unified_mem _ _ p hp) with h0 | h0
        · rw [hi] at h0; exact absurd h0 (by simp)
        · rw [hi] at h0
          have : i = "" := by injection h0
          exact absurd this hne
    rw [hb]
    simp

/-- C9 witness: a batch containing only falsy-ID postings yields none. -/
theorem extract_jobs_drops_falsy_ids_witness :
    extract_jobs_to_dataframe [[⟨none, 0⟩, ⟨some "", 1⟩]] = none :=
  (extract_jobs_drops_falsy_ids [[⟨none, 0⟩, ⟨some "", 1⟩]]).2 (by decide)

/-! ## Claim theorems (salary parsing) -/

/-- Evaluation helper: a captured token whose cleaned form is a nonempty
dot-free digit string parses to its decimal value. -/
theorem parseAmount_digits (g : List Char) (n : Nat)
    (hne : (cleanAmount g).isEmpty = false)
    (hall : ∀ c ∈ cleanAmount g, c ≠ '.')
    (hn : digitsToNat (cleanAmount g) = n) :
    parseAmount g = some (n : ℚ) := by
  have ht : List.takeWhile (fun c => decide (c ≠ '.')) (cleanAmount g) = cleanAmount g :=
    List.takeWhile_eq_self_iff.mpr (by simpa using hall)
  have hdw : List.dropWhile (fun c => decide (c ≠ '.')) (cleanAmount g) = [] :=
    List.dropWhile_eq_nil_iff.mpr (by simpa using hall)
  have hcnt : (cleanAmount g).count '.' = 0 :=
    List.count_eq_zero.mpr (fun h => hall _ h rfl)
  simp only [parseAmount, floatOfDigitsDots, hne, hcnt, ht, hdw, hn]
  norm_num [digitsToNat]

/-- The two components of extract_salary_info on a non-empty string are the
two components of salaryMinMax over the captured tokens. -/
theorem extract_salary_min_max_eq (s : String) (hs : s ≠ "") :
    (extract_salary_info (some s)).min_salary
      = (salaryMinMax (findAmounts (pyLower s).data)).1 ∧
    (extract_salary_info (some s)).max_salary
      = (salaryMinMax (findAmounts (pyLower s).data)).2 := by
  simp [extract_salary_info, if_neg hs]

/-- C2 counterexample: on "2500 €" the regex finds exactly one token, it
parses to 2500, yet max_salary is not set to 2500 — it stays none. -/
theorem extract_salary_one_token_cex :
    findAmounts (pyLower "2500 €").data = ["2500 ".data] ∧
    parseAmount "2500 ".data = some 2500 ∧
    (extract_salary_info (some "2500 €")).max_salary ≠ some 2500 := by
  refine ⟨by decide, ?_, by decide⟩
  simpa using parseAmount_digits "2500 ".data 2500 (by decide) (by decide) (by decide)

/-- C2 (amended): when the regex finds exactly one currency-qualified token
and it parses as v, extract_salary_info returns min_salary = v and
max_salary = none — only min is assigned in the one-token branch. -/
theorem extract_salary_one_token (s : String) (a : List Char) (v : ℚ)
    (hs : s ≠ "") (hf : findAmounts (pyLower s).data = [a]) (hp : parseAmount a = some v) :
    (extract_salary_info (some s)).min_salary = some v ∧
    (extract_salary_info (some s)).max_salary = none := by
  have hmm : salaryMinMax (findAmounts (pyLower s).data) = (some v, none) := by
    rw [hf]
    simp [salaryMinMax, hp]
  obtain ⟨e1, e2⟩ := extract_salary_min_max_eq s hs
  rw [e1, e2, hmm]
  exact ⟨rfl, rfl⟩

/-- C2 witness. -/
theorem extract_salary_one_token_witness :
    (extract_salary_info (some "2500 €")).min_salary = some 2500 ∧
    (extract_salary_info (some "2500 €")).max_salary = none :=
  extract_salary_one_token "2500 €" "2500 ".data 2500 (by decide) (by decide)
    (by simpa using parseAmount_digits "2500 ".data 2500 (by decide) (by decide) (by decide))

/-- C3 counterexample: on "1.2.3 € et 2500 €" two tokens are matched, the
first does not parse, the second parses to 2500; dropping the unparseable
token would yield min = 2500 (as the run on "2500 €" alone shows), but the
function returns (none, none): the failure of the first float() aborts both
assignments, so unparseable tokens are not dropped from consideration. -/
theorem extract_salary_unparseable_cex :
    findAmounts (pyLower "1.2.3 € et 2500 €").data = ["1.2.3".data, "2500 ".data] ∧
    parseAmount "1.2.3".data = none ∧
    parseAmount "2500 ".data = some 2500 ∧
    (extract_salary_info (some "1.2.3 € et 2500 €")).min_salary = none ∧
    (extract_salary_info (some "1.2.3 € et 2500 €")).max_salary = none ∧
    (extract_salary_info (some "2500 €")).min_salary = some 2500 := by
  have hp : parseAmount "2500 ".data = some 2500 := by
    simpa using parseAmount_digits "2500 ".data 2500 (by decide) (by decide) (by decide)
  refine ⟨by decide, by decide, hp, by decide, by decide, ?_⟩
  have hmm : salaryMinMax (findAmounts (pyLower "2500 €").data) = (some 2500, none) := by
    rw [show findAmounts (pyLower "2500 €").data = ["2500 ".data] from by decide]
    simp [salaryMinMax, hp]
  rw [(extract_salary_min_max_eq "2500 €" (by decide)).1, hmm]

/-- C3 (amended): an unparseable token never raises, but it is not dropped:
with at least two matched tokens, an unparseable first token leaves both min
and max unset even when the second token parses; an unparseable second token
leaves the already-parsed first token as min with max unset; two parseable
tokens give (first, second). -/
theorem extract_salary_unparseable (s : String) (a0 a1 : List Char) (t : List (List Char))
    (hs : s ≠ "") (hf : findAmounts (pyLower s).data = a0 :: a1 :: t) :
    (parseAmount a0 = none →
       (extract_salary_info (some s)).min_salary = none ∧
       (extract_salary_info (some s)).max_salary = none) ∧
    (∀ v0, parseAmount a0 = some v0 → parseAmount a1 = none →
       (extract_salary_info (some s)).min_salary = some v0 ∧
       (extract_salary_info (some s)).max_salary = none) ∧
    (∀ v0 v1, parseAmount a0 = some v0 → parseAmount a1 = some v1 →
       (extract_salary_info (some s)).min_salary = some v0 ∧
       (extract_salary_info (some s)).max_salary = some v1) := by
  obtain ⟨e1, e2⟩ := extract_salary_min_max_eq s hs
  refine ⟨?_, ?_, ?_⟩
  · intro h0
    have hmm : salaryMinMax (findAmounts (pyLower s).data) = (none, none) := by
      rw [hf]
      simp [salaryMinMax, h0]
    rw [e1, e2, hmm]
    exact ⟨rfl, rfl⟩
  · intro v0 h0 h1
    have hmm : salaryMinMax (findAmounts (pyLower s).data) = (some v0, none) := by
      rw [hf]
      simp [salaryMinMax, h0, h1]
    rw [e1, e2, hmm]
    exact ⟨rfl, rfl⟩
  · intro v0 v1 h0 h1
    have hmm : salaryMinMax (findAmounts (pyLower s).data) = (some v0, some v1) := by
      rw [hf]
      simp [salaryMinMax, h0, h1]
    rw [e1, e2, hmm]
    exact ⟨rfl, rfl⟩

/-- C3 witness: unparseable first token, parseable second. -/
theorem extract_salary_unparseable_witness :
    (extract_salary_info (some "9,,8 € et 2500 €")).min_salary = none ∧
    (extract_salary_info (some "9,,8 € et 2500 €")).max_salary = none :=
  (extract_salary_unparseable "9,,8 € et 2500 €" "9,,8".data "2500 ".data []
    (by decide) (by decide)).1 (by decide)

/-- C10: non-string and empty salary input give (none, none, none, "EUR")
with periodicity none, while every non-empty string gets a non-none
periodicity, defaulting to monthly when no periodicity marker occurs. -/
theorem extract_salary_defaults :
    extract_salary_info none = ⟨none, none, none, "EUR"⟩ ∧
    extract_salary_info (some "") = ⟨none, none, none, "EUR"⟩ ∧
    (∀ s : String, s ≠ "" → (extract_salary_info (some s)).periodicity ≠ none) ∧
    (∀ s : String, s ≠ "" →
      containsSub (pyLower s).data "annuel".data = false →
      containsSub (pyLower s).data "par an".data = false →
      containsSub (pyLower s).data "mensuel".data = false →
      containsSub (pyLower s).data "par mois".data = false →
      containsSub (pyLower s).data "horaire".data = false →
      containsSub (pyLower s).data "de l\x27heure".data = false →
      (extract_salary_info (some s)).periodicity = some "monthly") := by
  refine ⟨rfl, rfl, ?_, ?_⟩
  · intro s hs
    simp only [extract_salary_info, if_neg hs, pickPeriodicity]
    split_ifs <;> simp
  · intro s hs h1 h2 h3 h4 h5 h6
    simp only [extract_salary_info, if_neg hs, pickPeriodicity, h1, h2, h3, h4, h5, h6]
    rfl

/-- C10 witness. -/
theorem extract_salary_defaults_witness :
    (extract_salary_info (some "abc")).periodicity = some "monthly" :=
  extract_salary_defaults.2.2.2 "abc" (by decide) (by decide) (by decide) (by decide)
    (by decide) (by decide) (by decide)

/-! ## Claim theorems (contract classification) -/

/-- C4: categorize_contract_type returns the standardized type of the first
marker group found (case-insensitive substring match on the lowercased text)
in the fixed priority order cdi, cdd, intérim/interim, apprentissage, stage,
freelance/indépendant, temps partiel, temps plein; OTHER when no marker
matches; UNKNOWN on non-string input; and "CDI temps plein" maps to CDI. -/
theorem categorize_contract_first_marker :
    (∀ input, categorize_contract_type input = classify_contract_type_spec input) ∧
    categorize_contract_type (some "CDI temps plein") = "CDI" := by
  constructor
  · intro input
    cases input with
    | none => rfl
    | some s =>
      simp only [categorize_contract_type, classify_contract_type_spec, contractMarkers,
        List.find?, List.any_cons, List.any_nil, Bool.or_false]
      by_cases h1 : containsSub (pyLower s).data "cdi".data = true
      · simp [h1]
      · rw [Bool.not_eq_true] at h1
        by_cases h2 : containsSub (pyLower s).data "cdd".data = true
        · simp [h1, h2]
        · rw [Bool.not_eq_true] at h2
          by_cases h3 : (containsSub (pyLower s).data "intérim".data
              || containsSub (pyLower s).data "interim".data) = true
          · simp [h1, h2, h3]
          · rw [Bool.not_eq_true] at h3
            by_cases h4 : containsSub (pyLower s).data "apprentissage".data = true
            · simp [h1, h2, h3, h4]
            · rw [Bool.not_eq_true] at h4
              by_cases h5 : containsSub (pyLower s).data "stage".data = true
              · simp [h1, h2, h3, h4, h5]
              · rw [Bool.not_eq_true] at h5
                by_cases h6 : (containsSub (pyLower s).data "freelance".data
                    || containsSub (pyLower s).data "indépendant".data) = true
                · simp [h1, h2, h3, h4, h5, h6]
                · rw [Bool.not_eq_true] at h6
                  by_cases h7 : containsSub (pyLower s).data "temps partiel".data = true
                  · simp [h1, h2, h3, h4, h5, h6, h7]
                  · rw [Bool.not_eq_true] at h7
                    by_cases h8 : containsSub (pyLower s).data "temps plein".data = true
                    · simp [h1, h2, h3, h4, h5, h6, h7, h8]
                    · rw [Bool.not_eq_true] at h8
                      simp [h1, h2, h3, h4, h5, h6, h7, h8]
  · decide

/-! ## Claim theorems (normalizer totality) -/

/-- C7: every normalization function is a total function in this embedding
(each Python exception path in the source is caught), and malformed
(non-string) input degrades to the documented default: empty string,
(none, none, none, EUR), UNKNOWN, NOT_SPECIFIED, empty list. -/
theorem normalizers_default_on_malformed :
    clean_text_field none = "" ∧
    extract_salary_info none = ⟨none, none, none, "EUR"⟩ ∧
    categorize_contract_type none = "UNKNOWN" ∧
    extract_experience_level none = "NOT_SPECIFIED" ∧
    ∀ kl, extract_keywords none kl = [] :=
  ⟨rfl, rfl, rfl, rfl, fun _ => rfl⟩

/-! ## Lemmas about the DataFrame model -/

theorem find?_cons_eq_of_true {α : Type _} (p : α → Bool) (a : α) (l : List α)
    (h : p a = true) : (a :: l).find? p = some a := by
  rw [List.find?_cons, h]

theorem find?_cons_eq_of_false {α : Type _} (p : α → Bool) (a : α) (l : List α)
    (h : p a = false) : (a :: l).find? p = l.find? p := by
  rw [List.find?_cons, h]

theorem find?_setList_self (l : List (String × List Cell)) (n : String) (v : List Cell)
    (h : l.any (fun c => c.1 == n) = true) :
    ((l.map fun c => if c.1 == n then (n, v) else c).find? fun c => c.1 == n)
      = some (n, v) := by
  induction l with
  | nil => simp at h
  | cons c rest ih =>
    cases hc : (c.1 == n) with
    | true =>
      simp only [List.map_cons, if_pos hc]
      exact find?_cons_eq_of_true (fun x => x.1 == n) ((n, v) : String × List Cell) _ (by simp)
    | false =>
      have h2 : rest.any (fun c => c.1 == n) = true := by
        rw [List.any_cons, hc, Bool.false_or] at h
        exact h
      simp only [List.map_cons, if_neg (show ¬((c.1 == n) = true) by rw [hc]; exact Bool.false_ne_true)]
      rw [find?_cons_eq_of_false (fun x => x.1 == n) c _ hc]
      exact ih h2

theorem find?_append_single (l : List (String × List Cell)) (n : String) (v : List Cell)
    (h : l.any (fun c => c.1 == n) = false) :
    ((l ++ [(n, v)]).find? fun c => c.1 == n) = some (n, v) := by
  induction l with
  | nil =>
    rw [List.nil_append]
    exact find?_cons_eq_of_true _ _ _ (by simp)
  | cons c rest ih =>
    cases hc : (c.1 == n) with
    | true => rw [List.any_cons, hc] at h; simp at h
    | false =>
      rw [List.any_cons, hc, Bool.false_or] at h
      rw [List.cons_append, find?_cons_eq_of_false (fun x => x.1 == n) c _ hc]
      exact ih h

theorem getCol_setCol_self (d : DataFrame) (n : String) (v : List Cell) :
    getCol (setCol d n v) n = some v := by
  unfold getCol setCol
  by_cases h : hasCol d n
  · rw [if_pos h]
    rw [find?_setList_self d.cols n v h]
    rfl
  · rw [if_neg h]
    rw [find?_append_single d.cols n v (Bool.not_eq_true _ ▸ h)]
    rfl

theorem find?_setList_ne (l : List (String × List Cell)) (m n : String) (v : List Cell)
    (h : m ≠ n) :
    ((l.map fun c => if c.1 == n then (n, v) else c).find? fun c => c.1 == m)
      = l.find? fun c => c.1 == m := by
  induction l with
  | nil => rfl
  | cons c rest ih =>
    cases hc : (c.1 == n) with
    | true =>
      have hc2 : c.1 = n := by simpa using hc
      simp only [List.map_cons, if_pos hc]
      rw [find?_cons_eq_of_false (fun x => x.1 == m) ((n, v) : String × List Cell) _
          (by simp [Ne.symm h]),
        find?_cons_eq_of_false (fun x => x.1 == m) c _ (by simp [hc2, Ne.symm h])]
      exact ih
    | false =>
      simp only [List.map_cons, if_neg (show ¬((c.1 == n) = true) by rw [hc]; exact Bool.false_ne_true)]
      cases hm : (c.1 == m) with
      | true =>
        rw [find?_cons_eq_of_true (fun x => x.1 == m) c _ hm,
          find?_cons_eq_of_true (fun x => x.1 == m) c _ hm]
      | false =>
        rw [find?_cons_eq_of_false (fun x => x.1 == m) c _ hm,
          find?_cons_eq_of_false (fun x => x.1 == m) c _ hm]
        exact ih

theorem find?_append_single_ne (l : List (String × List Cell)) (m n : String) (v : List Cell)
    (h : m ≠ n) :
    ((l ++ [(n, v)]).find? fun c => c.1 == m) = l.find? fun c => c.1 == m := by
  induction l with
  | nil =>
    rw [List.nil_append,
      find?_cons_eq_of_false (fun x => x.1 == m) ((n, v) : String × List Cell) _
        (by simp [Ne.symm h])]
  | cons c rest ih =>
    cases hm : (c.1 == m) with
    | true =>
      rw [List.cons_append, find?_cons_eq_of_true (fun x => x.1 == m) c _ hm,
        find?_cons_eq_of_true (fun x => x.1 == m) c _ hm]
    | false =>
      rw [List.cons_append, find?_cons_eq_of_false (fun x => x.1 == m) c _ hm,
        find?_cons_eq_of_false (fun x => x.1 == m) c _ hm]
      exact ih

theorem getCol_setCol_ne (d : DataFrame) (m n : String) (v : List Cell) (h : m ≠ n) :
    getCol (setCol d n v) m = getCol d m := by
  unfold getCol setCol
  by_cases hc : hasCol d n
  · rw [if_pos hc, find?_setList_ne d.cols m n v h]
  · rw [if_neg hc, find?_append_single_ne d.cols m n v h]

theorem hasCol_setCol_self (d : DataFrame) (n : String) (v : List Cell) :
    hasCol (setCol d n v) n = true := by
  unfold setCol
  by_cases h : hasCol d n
  · rw [if_pos h]
    unfold hasCol at h ⊢
    rw [List.any_eq_true] at h ⊢
    obtain ⟨c, hc, hcn⟩ := h
    exact ⟨(n, v), List.mem_map.mpr ⟨c, hc, by rw [if_pos hcn]⟩, by simp⟩
  · rw [if_neg h]
    unfold hasCol
    simp [List.any_append]

theorem any_setList_ne (l : List (String × List Cell)) (m n : String) (v : List Cell)
    (h : m ≠ n) :
    ((l.map fun c => if c.1 == n then (n, v) else c).any fun c => c.1 == m)
      = l.any fun c => c.1 == m := by
  induction l with
  | nil => rfl
  | cons c rest ih =>
    cases hcn : (c.1 == n) with
    | true =>
      have hc2 : c.1 = n := by simpa using hcn
      have e1 : (((n, v) : String × List Cell).1 == m) = false := by simp [Ne.symm h]
      have e2 : ((n : String) == m) = false := by simp [Ne.symm h]
      have e3 : (c.1 == m) = false := by simp [hc2, Ne.symm h]
      simp only [List.map_cons, if_pos hcn, List.any_cons, ih, e1, e2, e3]
    | false =>
      simp only [List.map_cons,
        if_neg (show ¬((c.1 == n) = true) by rw [hcn]; exact Bool.false_ne_true),
        List.any_cons, ih]

theorem hasCol_setCol_ne (d : DataFrame) (m n : String) (v : List Cell) (h : m ≠ n) :
    hasCol (setCol d n v) m = hasCol d m := by
  unfold setCol
  by_cases hc : hasCol d n
  · rw [if_pos hc]
    unfold hasCol
    exact any_setList_ne d.cols m n v h
  · rw [if_neg hc]
    unfold hasCol
    simp [List.any_append, show ((n : String) == m) = false from by simp [Ne.symm h]]

theorem hasCol_false_iff (d : DataFrame) (n : String) :
    hasCol d n = false ↔ getCol d n = none := by
  unfold hasCol getCol
  rw [List.any_eq_false]
  constructor
  · intro h
    rw [List.find?_eq_none.mpr h]
    rfl
  · intro h c hc
    cases hf : d.cols.find? (fun c => c.1 == n) with
    | none => exact List.find?_eq_none.mp hf c hc
    | some c2 => rw [hf] at h; simp at h

theorem hasCol_true_iff (d : DataFrame) (n : String) :
    hasCol d n = true ↔ ∃ v, getCol d n = some v := by
  constructor
  · intro h
    cases hg : getCol d n with
    | none =>
      rw [(hasCol_false_iff d n).mpr hg] at h
      exact absurd h (by simp)
    | some v => exact ⟨v, rfl⟩
  · rintro ⟨v, hv⟩
    by_contra h
    rw [Bool.not_eq_true] at h
    rw [(hasCol_false_iff d n).mp h] at hv
    cases hv

theorem hasColVal_setCol_self (d : DataFrame) (n : String) (v : List Cell) :
    HasColVal (setCol d n v) n v := by
  refine ⟨hasCol_setCol_self d n v, ?_⟩
  intro c hc hcn
  unfold setCol at hc
  by_cases h : hasCol d n
  · rw [if_pos h] at hc
    obtain ⟨c0, hc0, hfc⟩ := List.mem_map.mp hc
    by_cases hcn0 : (c0.1 == n) = true
    · rw [if_pos hcn0] at hfc
      rw [← hfc]
    · rw [if_neg hcn0] at hfc
      subst hfc
      exact absurd hcn (by simpa using hcn0)
  · rw [if_neg h] at hc
    rcases List.mem_append.mp hc with h1 | h1
    · exfalso
      rw [Bool.not_eq_true] at h
      have := (hasCol_false_iff d n).mp h
      have h2 : hasCol d n = true := by
        unfold hasCol
        rw [List.any_eq_true]
        exact ⟨c, h1, by simp [hcn]⟩
      rw [h2] at h
      cases h
    · have h2 : c = (n, v) := by simpa using h1
      rw [h2]

theorem hasColVal_setCol_ne (d : DataFrame) (m n : String) (v w : List Cell)
    (h : m ≠ n) (hv : HasColVal d m v) : HasColVal (setCol d n w) m v := by
  refine ⟨by rw [hasCol_setCol_ne d m n w h]; exact hv.1, ?_⟩
  intro c hc hcm
  unfold setCol at hc
  by_cases hcol : hasCol d n
  · rw [if_pos hcol] at hc
    obtain ⟨c0, hc0, hfc⟩ := List.mem_map.mp hc
    by_cases hcn0 : (c0.1 == n) = true
    · rw [if_pos hcn0] at hfc
      subst hfc
      exact absurd hcm (by simpa using Ne.symm h)
    · rw [if_neg hcn0] at hfc
      subst hfc
      exact hv.2 c0 hc0 hcm
  · rw [if_neg hcol] at hc
    rcases List.mem_append.mp hc with h1 | h1
    · exact hv.2 c h1 hcm
    · have h2 : c = (n, w) := by simpa using h1
      subst h2
      exact absurd hcm (by simpa using Ne.symm h)

theorem setCol_of_hasColVal (d : DataFrame) (n : String) (v : List Cell)
    (hv : HasColVal d n v) : setCol d n v = d := by
  unfold setCol
  rw [if_pos hv.1]
  have hmap : d.cols.map (fun c => if c.1 == n then (n, v) else c) = d.cols := by
    have hpt : ∀ c ∈ d.cols, (if c.1 == n then (n, v) else c) = c := by
      intro c hc
      by_cases hcn : (c.1 == n) = true
      · have h1 : c.1 = n := by simpa using hcn
        have h2 : c.2 = v := hv.2 c hc h1
        rw [if_pos hcn]
        obtain ⟨c1, c2⟩ := c
        simp only at h1 h2
        rw [h1, h2]
      · rw [if_neg hcn]
    calc d.cols.map (fun c => if c.1 == n then (n, v) else c)
        = d.cols.map id := List.map_congr_left hpt
      _ = d.cols := List.map_id d.cols
  rw [hmap]

theorem getCol_of_hasColVal (d : DataFrame) (n : String) (v : List Cell)
    (hv : HasColVal d n v) : getCol d n = some v := by
  obtain ⟨h1, h2⟩ := hv
  unfold hasCol at h1
  rw [List.any_eq_true] at h1
  obtain ⟨c, hc, hcn⟩ := h1
  have hsome : (d.cols.find? fun c => c.1 == n).isSome :=
    List.find?_isSome.mpr ⟨c, hc, hcn⟩
  obtain ⟨c2, hc2⟩ := Option.isSome_iff_exists.mp hsome
  have hp := List.find?_some hc2
  have hm := List.mem_of_find?_eq_some hc2
  unfold getCol
  rw [hc2]
  exact congrArg some (h2 c2 hm (by simpa using hp))

/-! ## Lemmas about the keyword-analysis pass -/

theorem applyTechs_nil (d : DataFrame) : applyTechs [] d = d := rfl

theorem applyTechs_cons (t : String) (techs : List String) (d : DataFrame) :
    applyTechs (t :: techs) d
      = applyTechs techs
          (setCol d (techColName t)
            (flagCells ((getCol d "extracted_keywords").getD []) t)) := rfl

theorem applyTechs_hasColVal_ne (techs : List String) (d : DataFrame) (m : String)
    (v : List Cell) (h : ∀ t ∈ techs, techColName t ≠ m) (hv : HasColVal d m v) :
    HasColVal (applyTechs techs d) m v := by
  induction techs generalizing d with
  | nil => exact hv
  | cons t rest ih =>
    rw [applyTechs_cons]
    exact ih _ (fun t2 ht2 => h t2 (List.mem_cons_of_mem t ht2))
      (hasColVal_setCol_ne _ m (techColName t) v _
        (Ne.symm (h t (List.mem_cons_self t rest))) hv)

theorem applyTechs_getCol_ne (techs : List String) (d : DataFrame) (m : String)
    (h : ∀ t ∈ techs, techColName t ≠ m) :
    getCol (applyTechs techs d) m = getCol d m := by
  induction techs generalizing d with
  | nil => rfl
  | cons t rest ih =>
    rw [applyTechs_cons, ih _ (fun t2 ht2 => h t2 (List.mem_cons_of_mem t ht2)),
      getCol_setCol_ne _ m (techColName t) _ (Ne.symm (h t (List.mem_cons_self t rest)))]

theorem applyTechs_fix (techs : List String) (d : DataFrame) (kws : List Cell)
    (hek : HasColVal d "extracted_keywords" kws)
    (hall : ∀ t ∈ techs, HasColVal d (techColName t) (flagCells kws t)) :
    applyTechs techs d = d := by
  induction techs with
  | nil => rfl
  | cons t rest ih =>
    rw [applyTechs_cons, getCol_of_hasColVal d "extracted_keywords" kws hek]
    simp only [Option.getD_some]
    rw [setCol_of_hasColVal d (techColName t) (flagCells kws t)
      (hall t (List.mem_cons_self t rest))]
    exact ih (fun t2 h2 => hall t2 (List.mem_cons_of_mem t h2))

theorem applyTechs_hasColVal_tech (techs : List String) (d : DataFrame) (kws : List Cell)
    (hek : HasColVal d "extracted_keywords" kws)
    (hne : ∀ t ∈ techs, techColName t ≠ "extracted_keywords")
    (hnd : (techs.map techColName).Nodup) :
    ∀ t ∈ techs, HasColVal (applyTechs techs d) (techColName t) (flagCells kws t) := by
  induction techs generalizing d with
  | nil => intro t ht; simp at ht
  | cons t0 rest ih =>
    intro t ht
    have hnd2 := List.nodup_cons.mp hnd
    rw [applyTechs_cons, getCol_of_hasColVal d _ kws hek]
    simp only [Option.getD_some]
    have hek2 : HasColVal (setCol d (techColName t0) (flagCells kws t0))
        "extracted_keywords" kws :=
      hasColVal_setCol_ne _ _ _ _ _
        (Ne.symm (hne t0 (List.mem_cons_self t0 rest))) hek
    rcases List.mem_cons.mp ht with he | hrest
    · subst he
      have hnotin : ∀ t2 ∈ rest, techColName t2 ≠ techColName t := by
        intro t2 h2 he2
        exact hnd2.1 (he2 ▸ List.mem_map_of_mem techColName h2)
      exact applyTechs_hasColVal_ne rest _ _ _ hnotin
        (hasColVal_setCol_self d (techColName t) (flagCells kws t))
    · exact ih _ hek2 (fun t2 h2 => hne t2 (List.mem_cons_of_mem t0 h2)) hnd2.2 t hrest

/-- The result of apply_keyword_analysis on a frame carrying a cleaned
description column, written out. -/
theorem apply_keyword_analysis_eq (d : DataFrame) (col : List Cell)
    (hd : getCol d "description_clean" = some col) :
    apply_keyword_analysis (some d)
      = some (setCol
          (applyTechs mainTechs (setCol d "extracted_keywords" (kwCells col)))
          "keyword_count" ((kwCells col).map countCell)) := by
  have hek : HasColVal (applyTechs mainTechs (setCol d "extracted_keywords" (kwCells col)))
      "extracted_keywords" (kwCells col) :=
    applyTechs_hasColVal_ne mainTechs _ _ _ (by decide)
      (hasColVal_setCol_self d "extracted_keywords" (kwCells col))
  have hg : getCol (applyTechs mainTechs (setCol d "extracted_keywords" (kwCells col)))
      "extracted_keywords" = some (kwCells col) :=
    getCol_of_hasColVal _ _ _ hek
  simp only [apply_keyword_analysis, hd, hg, Option.getD_some]

/-- The columns of the result of apply_keyword_analysis, as functions of the
cleaned-description column alone. -/
theorem apply_keyword_analysis_cols (d : DataFrame) (col : List Cell)
    (hd : getCol d "description_clean" = some col) :
    ∃ r, apply_keyword_analysis (some d) = some r ∧
      getCol r "description_clean" = some col ∧
      HasColVal r "extracted_keywords" (kwCells col) ∧
      (∀ t ∈ mainTechs, HasColVal r (techColName t) (flagCells (kwCells col) t)) ∧
      HasColVal r "keyword_count" ((kwCells col).map countCell) := by
  have hek1 : HasColVal (setCol d "extracted_keywords" (kwCells col))
      "extracted_keywords" (kwCells col) :=
    hasColVal_setCol_self d "extracted_keywords" (kwCells col)
  have hek2 : HasColVal (applyTechs mainTechs (setCol d "extracted_keywords" (kwCells col)))
      "extracted_keywords" (kwCells col) :=
    applyTechs_hasColVal_ne mainTechs _ _ _ (by decide) hek1
  have htech2 := applyTechs_hasColVal_tech mainTechs
    (setCol d "extracted_keywords" (kwCells col)) (kwCells col) hek1 (by decide) (by decide)
  refine ⟨_, apply_keyword_analysis_eq d col hd, ?_, ?_, ?_, ?_⟩
  · rw [getCol_setCol_ne _ _ _ _ (by decide),
      applyTechs_getCol_ne mainTechs _ _ (by decide),
      getCol_setCol_ne _ _ _ _ (by decide)]
    exact hd
  · exact hasColVal_setCol_ne _ _ _ _ _ (by decide) hek2
  · intro t ht
    refine hasColVal_setCol_ne _ _ _ _ _ ?_ (htech2 t ht)
    revert t
    decide
  · exact hasColVal_setCol_self _ _ _

/-! ## Claim theorems (keyword analysis) -/

/-- C8: apply_keyword_analysis is the identity on none and on frames without
a description_clean column; it is idempotent; and the derived columns
(extracted_keywords, the six has_* flags, keyword_count) of its result are
functions of the description_clean column alone, so two frames agreeing on
that column receive identical derived columns. -/
theorem apply_keyword_analysis_pure :
    (apply_keyword_analysis none = none)
    ∧ (∀ d, getCol d "description_clean" = none → apply_keyword_analysis (some d) = some d)
    ∧ (∀ df, apply_keyword_analysis (apply_keyword_analysis df) = apply_keyword_analysis df)
    ∧ (∀ d col, getCol d "description_clean" = some col →
        ∃ r, apply_keyword_analysis (some d) = some r ∧
          getCol r "description_clean" = some col ∧
          getCol r "extracted_keywords" = some (kwCells col) ∧
          (∀ t ∈ mainTechs, getCol r (techColName t) = some (flagCells (kwCells col) t)) ∧
          getCol r "keyword_count" = some ((kwCells col).map countCell)) := by
  have hnone : ∀ d, getCol d "description_clean" = none →
      apply_keyword_analysis (some d) = some d := by
    intro d h
    simp only [apply_keyword_analysis, h]
  have hfix : ∀ d col, getCol d "description_clean" = some col →
      apply_keyword_analysis (apply_keyword_analysis (some d))
        = apply_keyword_analysis (some d) := by
    intro d col hd
    obtain ⟨r, hr, hdc, hek, htech, hkc⟩ := apply_keyword_analysis_cols d col hd
    rw [hr, apply_keyword_analysis_eq r col hdc]
    have h1 : setCol r "extracted_keywords" (kwCells col) = r :=
      setCol_of_hasColVal _ _ _ hek
    rw [h1, applyTechs_fix mainTechs r (kwCells col) hek htech,
      setCol_of_hasColVal _ _ _ hkc]
  refine ⟨rfl, hnone, ?_, ?_⟩
  · intro df
    match df with
    | none => rfl
    | some d =>
      cases hg : getCol d "description_clean" with
      | none => rw [hnone d hg, hnone d hg]
      | some col => exact hfix d col hg
  · intro d col hd
    obtain ⟨r, hr, hdc, hek, htech, hkc⟩ := apply_keyword_analysis_cols d col hd
    exact ⟨r, hr, hdc, getCol_of_hasColVal _ _ _ hek,
      fun t ht => getCol_of_hasColVal _ _ _ (htech t ht),
      getCol_of_hasColVal _ _ _ hkc⟩

/-! ## Lemmas about the loading preparation -/

theorem hasCol_eq_false_of_not_mem_names (d : DataFrame) (m : String)
    (h : m ∉ d.cols.map (fun c => c.1)) : hasCol d m = false := by
  unfold hasCol
  rw [List.any_eq_false]
  intro c hc
  simp only [beq_iff_eq]
  intro he
  exact h (he ▸ List.mem_map_of_mem (fun c => c.1) hc)

theorem fillMissing_cons (n : Nat) (kv : String × String) (maps : List (String × String))
    (acc : DataFrame) :
    fillMissing n (kv :: maps) acc
      = fillMissing n maps
          (if hasCol acc kv.2 then acc
           else setCol acc kv.2 (List.replicate n Cell.null)) := rfl

theorem fillMissing_getCol_preserved (n : Nat) (maps : List (String × String))
    (acc : DataFrame) (m : String) (vs : List Cell) (h : getCol acc m = some vs) :
    getCol (fillMissing n maps acc) m = some vs := by
  induction maps generalizing acc with
  | nil => exact h
  | cons kv rest ih =>
    rw [fillMissing_cons]
    by_cases hc : hasCol acc kv.2 = true
    · rw [if_pos hc]
      exact ih _ h
    · rw [if_neg hc]
      apply ih
      by_cases hmk : m = kv.2
      · rw [hmk] at h
        rw [(hasCol_false_iff acc kv.2).mp (Bool.not_eq_true _ ▸ hc)] at h
        cases h
      · rw [getCol_setCol_ne _ _ _ _ hmk]
        exact h

theorem fillMissing_getCol_of_not (n : Nat) (maps : List (String × String))
    (acc : DataFrame) (m : String) (h : m ∉ maps.map (fun kv => kv.2)) :
    getCol (fillMissing n maps acc) m = getCol acc m := by
  induction maps generalizing acc with
  | nil => rfl
  | cons kv rest ih =>
    simp only [List.map_cons, List.mem_cons, not_or] at h
    rw [fillMissing_cons]
    by_cases hc : hasCol acc kv.2 = true
    · rw [if_pos hc]
      exact ih _ h.2
    · rw [if_neg hc, ih _ h.2, getCol_setCol_ne _ _ _ _ h.1]

theorem fillMissing_hasCol_of_not (n : Nat) (maps : List (String × String))
    (acc : DataFrame) (m : String) (h : m ∉ maps.map (fun kv => kv.2)) :
    hasCol (fillMissing n maps acc) m = hasCol acc m := by
  induction maps generalizing acc with
  | nil => rfl
  | cons kv rest ih =>
    simp only [List.map_cons, List.mem_cons, not_or] at h
    rw [fillMissing_cons]
    by_cases hc : hasCol acc kv.2 = true
    · rw [if_pos hc]
      exact ih _ h.2
    · rw [if_neg hc, ih _ h.2, hasCol_setCol_ne _ _ _ _ h.1]

theorem fillMissing_getCol_absent (n : Nat) (maps : List (String × String))
    (acc : DataFrame) (kv : String × String)
    (hnd : (maps.map (fun kv => kv.2)).Nodup) (hm : kv ∈ maps)
    (hc : hasCol acc kv.2 = false) :
    getCol (fillMissing n maps acc) kv.2 = some (List.replicate n Cell.null) := by
  induction maps generalizing acc with
  | nil => simp at hm
  | cons kv0 rest ih =>
    rw [List.map_cons] at hnd
    have hnd2 := List.nodup_cons.mp hnd
    rcases List.mem_cons.mp hm with he | hrest
    · subst he
      rw [fillMissing_cons, if_neg (by rw [hc]; exact Bool.false_ne_true)]
      rw [fillMissing_getCol_of_not n rest _ kv.2 hnd2.1]
      exact getCol_setCol_self acc kv.2 (List.replicate n Cell.null)
    · have hne : kv0.2 ≠ kv.2 := by
        intro he2
        exact hnd2.1 (he2 ▸ List.mem_map_of_mem (fun kv => kv.2) hrest)
      rw [fillMissing_cons]
      by_cases hc0 : hasCol acc kv0.2 = true
      · rw [if_pos hc0]
        exact ih _ hnd2.2 hrest hc
      · rw [if_neg hc0]
        refine ih _ hnd2.2 hrest ?_
        rw [hasCol_setCol_ne _ _ _ _ (Ne.symm hne)]
        exact hc

theorem applyDates_cons (f : Cell → Cell) (c : String) (cols : List String)
    (acc : DataFrame) :
    applyDates f (c :: cols) acc
      = applyDates f cols
          (if hasCol acc c then setCol acc c (((getCol acc c).getD []).map f) else acc) := rfl

theorem applyDates_getCol_of_not (f : Cell → Cell) (cols : List String) (acc : DataFrame)
    (m : String) (h : m ∉ cols) :
    getCol (applyDates f cols acc) m = getCol acc m := by
  induction cols generalizing acc with
  | nil => rfl
  | cons c rest ih =>
    simp only [List.mem_cons, not_or] at h
    rw [applyDates_cons]
    by_cases hc : hasCol acc c = true
    · rw [if_pos hc, ih _ h.2, getCol_setCol_ne _ _ _ _ h.1]
    · rw [if_neg hc]
      exact ih _ h.2

theorem applyDates_getCol_mem (f : Cell → Cell) (cols : List String) (acc : DataFrame)
    (m : String) (vs : List Cell) (hnd : cols.Nodup) (hm : m ∈ cols)
    (h : getCol acc m = some vs) :
    getCol (applyDates f cols acc) m = some (vs.map f) := by
  induction cols generalizing acc with
  | nil => simp at hm
  | cons c rest ih =>
    have hnd2 := List.nodup_cons.mp hnd
    rcases List.mem_cons.mp hm with he | hrest
    · subst he
      have hc : hasCol acc m = true := (hasCol_true_iff acc m).mpr ⟨vs, h⟩
      rw [applyDates_cons, if_pos hc, applyDates_getCol_of_not f rest _ m hnd2.1, h]
      simp only [Option.getD_some]
      exact getCol_setCol_self acc m (vs.map f)
    · have hne : m ≠ c := fun he2 => hnd2.1 (he2 ▸ hrest)
      rw [applyDates_cons]
      by_cases hc : hasCol acc c = true
      · rw [if_pos hc]
        refine ih _ hnd2.2 hrest ?_
        rw [getCol_setCol_ne _ _ _ _ hne]
        exact h
      · rw [if_neg hc]
        exact ih _ hnd2.2 hrest h

theorem setCol_names (d : DataFrame) (n : String) (v : List Cell) :
    ∀ c ∈ (setCol d n v).cols, c.1 = n ∨ c.1 ∈ d.cols.map (fun c => c.1) := by
  intro c hc
  unfold setCol at hc
  by_cases h : hasCol d n
  · rw [if_pos h] at hc
    obtain ⟨c0, hc0, hfc⟩ := List.mem_map.mp hc
    by_cases hcn : (c0.1 == n) = true
    · rw [if_pos hcn] at hfc
      exact Or.inl (hfc ▸ rfl)
    · rw [if_neg hcn] at hfc
      exact Or.inr (hfc ▸ List.mem_map_of_mem (fun c => c.1) hc0)
  · rw [if_neg h] at hc
    rcases List.mem_append.mp hc with h1 | h1
    · exact Or.inr (List.mem_map_of_mem (fun c => c.1) h1)
    · have h2 : c = (n, v) := by simpa using h1
      exact Or.inl (h2 ▸ rfl)

theorem setCol_names_sub (d : DataFrame) (n : String) (v : List Cell) :
    ∀ m ∈ (setCol d n v).cols.map (fun c => c.1),
      m = n ∨ m ∈ d.cols.map (fun c => c.1) := by
  intro m hm
  obtain ⟨c, hc, he⟩ := List.mem_map.mp hm
  exact he ▸ setCol_names d n v c hc

theorem fillMissing_names (n : Nat) (maps : List (String × String)) (acc : DataFrame) :
    ∀ c ∈ (fillMissing n maps acc).cols,
      c.1 ∈ maps.map (fun kv => kv.2) ∨ c.1 ∈ acc.cols.map (fun c => c.1) := by
  induction maps generalizing acc with
  | nil => intro c hc; exact Or.inr (List.mem_map_of_mem (fun c => c.1) hc)
  | cons kv rest ih =>
    intro c hc
    rw [fillMissing_cons] at hc
    by_cases h : hasCol acc kv.2 = true
    · rw [if_pos h] at hc
      rcases ih _ c hc with h1 | h1
      · exact Or.inl (List.mem_cons_of_mem _ h1)
      · exact Or.inr h1
    · rw [if_neg h] at hc
      rcases ih _ c hc with h1 | h1
      · exact Or.inl (List.mem_cons_of_mem _ h1)
      · rcases setCol_names_sub acc kv.2 (List.replicate n Cell.null) c.1 h1 with h2 | h2
        · exact Or.inl (by rw [h2]; exact List.mem_cons_self _ _)
        · exact Or.inr h2

theorem applyDates_names (f : Cell → Cell) (cols : List String) (acc : DataFrame) :
    ∀ c ∈ (applyDates f cols acc).cols,
      c.1 ∈ cols ∨ c.1 ∈ acc.cols.map (fun c => c.1) := by
  induction cols generalizing acc with
  | nil => intro c hc; exact Or.inr (List.mem_map_of_mem (fun c => c.1) hc)
  | cons c0 rest ih =>
    intro c hc
    rw [applyDates_cons] at hc
    by_cases h : hasCol acc c0 = true
    · rw [if_pos h] at hc
      rcases ih _ c hc with h1 | h1
      · exact Or.inl (List.mem_cons_of_mem _ h1)
      · rcases setCol_names_sub acc c0 _ c.1 h1 with h2 | h2
        · exact Or.inl (by rw [h2]; exact List.mem_cons_self _ _)
        · exact Or.inr h2
    · rw [if_neg h] at hc
      rcases ih _ c hc with h1 | h1
      · exact Or.inl (List.mem_cons_of_mem _ h1)
      · exact Or.inr h1

theorem getCol_mk_cons_of_true (x : String × List Cell) (xs : List (String × List Cell))
    (m : String) (h : (x.1 == m) = true) :
    getCol ⟨x :: xs⟩ m = some x.2 := by
  unfold getCol
  rw [find?_cons_eq_of_true (fun c : String × List Cell => c.1 == m) x xs h]
  rfl

theorem getCol_mk_cons_of_false (x : String × List Cell) (xs : List (String × List Cell))
    (m : String) (h : (x.1 == m) = false) :
    getCol ⟨x :: xs⟩ m = getCol ⟨xs⟩ m := by
  unfold getCol
  rw [find?_cons_eq_of_false (fun c : String × List Cell => c.1 == m) x xs h]

theorem getCol_selected (d : DataFrame) (keep : List (String × String))
    (hnd : (keep.map (fun kv => kv.2)).Nodup) (kv : String × String) (hkv : kv ∈ keep) :
    getCol ⟨keep.map fun p => (p.2, (getCol d p.1).getD [])⟩ kv.2
      = some ((getCol d kv.1).getD []) := by
  induction keep with
  | nil => simp at hkv
  | cons p rest ih =>
    rw [List.map_cons] at hnd
    have hnd2 := List.nodup_cons.mp hnd
    rcases List.mem_cons.mp hkv with he | hrest
    · subst he
      simp only [List.map_cons]
      exact getCol_mk_cons_of_true _ _ _ (by simp)
    · have hne : kv.2 ≠ p.2 := by
        intro he2
        exact hnd2.1 (he2 ▸ List.mem_map_of_mem (fun kv => kv.2) hrest)
      simp only [List.map_cons]
      rw [getCol_mk_cons_of_false _ _ _ (by simp [Ne.symm hne])]
      exact ih hnd2.2 hrest

/-- The successful branch of prepare_job_data_for_loading, written out. -/
theorem prepare_some_eq (toDT : Cell → Cell) (d : DataFrame) (h0 : ¬nRows d = 0)
    (hk : ¬column_mapping.filter (fun kv => hasCol d kv.1) = []) :
    prepare_job_data_for_loading toDT (some d)
      = some (applyDates toDT dateColumnsLoad
          (setCol (fillMissing (nRows d) column_mapping
              ⟨(column_mapping.filter (fun kv => hasCol d kv.1)).map
                fun p => (p.2, (getCol d p.1).getD [])⟩)
            "source" (List.replicate (nRows d) (Cell.str "FRANCE_TRAVAIL")))) := by
  simp only [prepare_job_data_for_loading, if_neg h0, if_neg hk]

/-! ## Claim theorems (load preparation) -/

set_option maxHeartbeats 1000000 in
/-- C5: prepare_job_data_for_loading returns none exactly when the input is
none, empty, or shares no column with the fixed source-to-target mapping;
otherwise the kept source columns are renamed to their target names with
their values preserved (date columns passing through the datetime coercion),
every target column absent from the input is filled with nulls, a constant
source column FRANCE_TRAVAIL is appended, and no column outside the target
schema plus source survives. `toDT` abstracts pandas to_datetime with
errors=coerce, which maps null to null. -/
theorem prepare_job_data_spec (toDT : Cell → Cell) (hDT : toDT Cell.null = Cell.null) :
    (prepare_job_data_for_loading toDT none = none)
    ∧ (∀ d, prepare_job_data_for_loading toDT (some d) = none ↔
        (nRows d = 0 ∨ ∀ kv ∈ column_mapping, hasCol d kv.1 = false))
    ∧ (∀ d r, prepare_job_data_for_loading toDT (some d) = some r →
        getCol r "source" = some (List.replicate (nRows d) (Cell.str "FRANCE_TRAVAIL"))
        ∧ (∀ kv ∈ column_mapping, hasCol d kv.1 = false →
            getCol r kv.2 = some (List.replicate (nRows d) Cell.null))
        ∧ (∀ kv ∈ column_mapping, ∀ vs, getCol d kv.1 = some vs →
            getCol r kv.2 = some (if kv.2 ∈ dateColumnsLoad then vs.map toDT else vs))
        ∧ (∀ c ∈ r.cols, c.1 ∈ column_mapping.map (fun kv => kv.2) ∨ c.1 = "source")) := by
  have hndt : (column_mapping.map (fun kv => kv.2)).Nodup := by decide
  have hnds : dateColumnsLoad.Nodup := by decide
  have hsrcnotin : ∀ kv ∈ column_mapping, kv.2 ≠ "source" := by decide
  have hsrcnotdate : "source" ∉ dateColumnsLoad := by decide
  have hdatesub : ∀ c ∈ dateColumnsLoad, c ∈ column_mapping.map (fun kv => kv.2) := by decide
  refine ⟨rfl, ?_, ?_⟩
  · intro d
    by_cases h0 : nRows d = 0
    · simp only [prepare_job_data_for_loading, if_pos h0]
      exact ⟨fun _ => Or.inl h0, fun _ => trivial⟩
    · by_cases hk : column_mapping.filter (fun kv => hasCol d kv.1) = []
      · constructor
        · intro _
          refine Or.inr fun kv hkv => ?_
          exact Bool.not_eq_true _ ▸ List.filter_eq_nil_iff.mp hk kv hkv
        · intro _
          simp only [prepare_job_data_for_loading, if_neg h0, if_pos hk]
      · rw [prepare_some_eq toDT d h0 hk]
        constructor
        · intro hnone
          cases hnone
        · rintro (h | h)
          · exact absurd h h0
          · refine absurd (List.filter_eq_nil_iff.mpr fun kv hkv => ?_) hk
            rw [h kv hkv]
            exact Bool.false_ne_true
  · intro d r hr
    by_cases h0 : nRows d = 0
    · simp only [prepare_job_data_for_loading, if_pos h0] at hr
      cases hr
    by_cases hkeepnil : column_mapping.filter (fun kv => hasCol d kv.1) = []
    · simp only [prepare_job_data_for_loading, if_neg h0, if_pos hkeepnil] at hr
      cases hr
    rw [prepare_some_eq toDT d h0 hkeepnil] at hr
    rw [← Option.some.inj hr]
    have hkeepnd : ((column_mapping.filter (fun kv => hasCol d kv.1)).map
        (fun kv => kv.2)).Nodup :=
      List.Nodup.sublist (List.Sublist.map _ (List.filter_sublist column_mapping)) hndt
    have hselnames : ∀ m, m ∈ (DataFrame.mk
        ((column_mapping.filter (fun kv => hasCol d kv.1)).map
          fun p => (p.2, (getCol d p.1).getD []))).cols.map (fun c => c.1) →
        ∃ p ∈ column_mapping.filter (fun kv => hasCol d kv.1), p.2 = m := by
      intro m hm
      obtain ⟨c, hc, he⟩ := List.mem_map.mp hm
      obtain ⟨p, hp, he2⟩ := List.mem_map.mp hc
      exact ⟨p, hp, by rw [← he, ← he2]⟩
    refine ⟨?_, ?_, ?_, ?_⟩
    · rw [applyDates_getCol_of_not _ _ _ _ hsrcnotdate, getCol_setCol_self]
    · intro kv hkv hb
      have hnotkeep : kv ∉ column_mapping.filter (fun kv => hasCol d kv.1) := by
        intro hmem
        have := (List.mem_filter.mp hmem).2
        rw [hb] at this
        exact Bool.false_ne_true this
      have hselfalse : hasCol (DataFrame.mk
          ((column_mapping.filter (fun kv => hasCol d kv.1)).map
            fun p => (p.2, (getCol d p.1).getD []))) kv.2 = false := by
        apply hasCol_eq_false_of_not_mem_names
        intro hm
        obtain ⟨p, hp, he⟩ := hselnames kv.2 hm
        have hpm : p ∈ column_mapping := List.mem_of_mem_filter hp
        have : p = kv := List.inj_on_of_nodup_map hndt hpm hkv he
        exact hnotkeep (this ▸ hp)
      have hfill := fillMissing_getCol_absent (nRows d) column_mapping _ kv hndt hkv hselfalse
      have hws : getCol (setCol (fillMissing (nRows d) column_mapping
          ⟨(column_mapping.filter (fun kv => hasCol d kv.1)).map
            fun p => (p.2, (getCol d p.1).getD [])⟩)
          "source" (List.replicate (nRows d) (Cell.str "FRANCE_TRAVAIL"))) kv.2
          = some (List.replicate (nRows d) Cell.null) := by
        rw [getCol_setCol_ne _ _ _ _ (hsrcnotin kv hkv)]
        exact hfill
      by_cases hdc : kv.2 ∈ dateColumnsLoad
      · rw [applyDates_getCol_mem toDT _ _ _ _ hnds hdc hws, List.map_replicate, hDT]
      · rw [applyDates_getCol_of_not _ _ _ _ hdc]
        exact hws
    · intro kv hkv vs hv
      have hkeep : kv ∈ column_mapping.filter (fun kv => hasCol d kv.1) :=
        List.mem_filter.mpr ⟨hkv, (hasCol_true_iff d kv.1).mpr ⟨vs, hv⟩⟩
      have hsel : getCol (DataFrame.mk
          ((column_mapping.filter (fun kv => hasCol d kv.1)).map
            fun p => (p.2, (getCol d p.1).getD []))) kv.2 = some vs := by
        rw [getCol_selected d _ hkeepnd kv hkeep, hv]
        rfl
      have hfill := fillMissing_getCol_preserved (nRows d) column_mapping _ kv.2 vs hsel
      have hws : getCol (setCol (fillMissing (nRows d) column_mapping
          ⟨(column_mapping.filter (fun kv => hasCol d kv.1)).map
            fun p => (p.2, (getCol d p.1).getD [])⟩)
          "source" (List.replicate (nRows d) (Cell.str "FRANCE_TRAVAIL"))) kv.2
          = some vs := by
        rw [getCol_setCol_ne _ _ _ _ (hsrcnotin kv hkv)]
        exact hfill
      by_cases hdc : kv.2 ∈ dateColumnsLoad
      · rw [if_pos hdc]
        exact applyDates_getCol_mem toDT _ _ _ _ hnds hdc hws
      · rw [if_neg hdc]
        rw [applyDates_getCol_of_not _ _ _ _ hdc]
        exact hws
    · intro c hc
      rcases applyDates_names toDT dateColumnsLoad _ c hc with h1 | h1
      · exact Or.inl (hdatesub _ h1)
      · rcases setCol_names_sub _ "source" _ c.1 h1 with h2 | h2
        · exact Or.inr h2
        · obtain ⟨c2, hc2, he⟩ := List.mem_map.mp h2
          rcases fillMissing_names (nRows d) column_mapping _ c2 hc2 with h3 | h3
          · exact Or.inl (he ▸ h3)
          · obtain ⟨p, hp, hpe⟩ := hselnames c2.1 h3
            refine Or.inl (he ▸ hpe ▸ ?_)
            exact List.mem_map_of_mem (fun kv => kv.2) (List.mem_of_mem_filter hp)

/-- C5 witness: the empty frame gives none; a one-row frame carrying only an
id column receives the constant source column. -/
theorem prepare_job_data_spec_witness :
    prepare_job_data_for_loading (fun c => c) (some ⟨[]⟩) = none ∧
    ∃ r, prepare_job_data_for_loading (fun c => c)
        (some ⟨[("id", [Cell.str "x"])]⟩) = some r ∧
      getCol r "source" = some [Cell.str "FRANCE_TRAVAIL"] := by
  constructor
  · exact ((prepare_job_data_spec (fun c => c) rfl).2.1 ⟨[]⟩).mpr (Or.inl rfl)
  · cases hres : prepare_job_data_for_loading (fun c => c)
        (some ⟨[("id", [Cell.str "x"])]⟩) with
    | none =>
      rcases ((prepare_job_data_spec (fun c => c) rfl).2.1
          ⟨[("id", [Cell.str "x"])]⟩).mp hres with h | h
      · exact absurd h (by decide)
      · exact absurd (h ("id", "id") (by decide)) (by decide)
    | some r =>
      have h := (prepare_job_data_spec (fun c => c) rfl).2.2
        ⟨[("id", [Cell.str "x"])]⟩ r hres
      exact ⟨r, rfl, by simpa using h.1⟩

/-! ## Claim theorems (pipeline orchestration) -/

/-- C6: execute_etl_pipeline returns 0 whenever a stage fails — extraction
yielding none, transformation yielding none, load preparation yielding none,
connection yielding none, or table creation returning false — and the
quantification over all later-stage behaviors in each failure clause shows no
later stage influences the outcome; when every stage succeeds it returns
exactly the row count reported by load_jobs_to_database. -/
theorem execute_etl_short_circuit :
    (∀ toIso now toDT engine ddl toSql,
       execute_etl_pipeline toIso now toDT none engine ddl toSql = 0)
    ∧ (∀ toIso now toDT rdf engine ddl toSql,
        transform_job_dataframe toIso now (some rdf) = none →
        execute_etl_pipeline toIso now toDT (some rdf) engine ddl toSql = 0)
    ∧ (∀ toIso now toDT rdf tdf kdf engine ddl toSql,
        transform_job_dataframe toIso now (some rdf) = some tdf →
        apply_keyword_analysis (some tdf) = some kdf →
        prepare_job_data_for_loading toDT (some kdf) = none →
        execute_etl_pipeline toIso now toDT (some rdf) engine ddl toSql = 0)
    ∧ (∀ toIso now toDT raw ddl toSql,
        execute_etl_pipeline toIso now toDT raw none ddl toSql = 0)
    ∧ (∀ toIso now toDT raw e ddl toSql, ddl e = false →
        execute_etl_pipeline toIso now toDT raw (some e) ddl toSql = 0)
    ∧ (∀ toIso now toDT rdf tdf kdf ldf e ddl toSql,
        transform_job_dataframe toIso now (some rdf) = some tdf →
        apply_keyword_analysis (some tdf) = some kdf →
        prepare_job_data_for_loading toDT (some kdf) = some ldf →
        ddl e = true →
        execute_etl_pipeline toIso now toDT (some rdf) (some e) ddl toSql
          = load_jobs_to_database toSql (some ldf) (some e)) := by
  refine ⟨fun _ _ _ _ _ _ => rfl, ?_, ?_, ?_, ?_, ?_⟩
  · intro toIso now toDT rdf engine ddl toSql h
    simp only [execute_etl_pipeline, h]
  · intro toIso now toDT rdf tdf kdf engine ddl toSql h1 h2 h3
    simp only [execute_etl_pipeline, h1, h2, h3]
  · intro toIso now toDT raw ddl toSql
    cases raw with
    | none => rfl
    | some rdf =>
      cases h1 : transform_job_dataframe toIso now (some rdf) with
      | none => simp only [execute_etl_pipeline, h1]
      | some tdf =>
        cases h2 : apply_keyword_analysis (some tdf) with
        | none => simp only [execute_etl_pipeline, h1, h2]
        | some kdf =>
          cases h3 : prepare_job_data_for_loading toDT (some kdf) with
          | none => simp only [execute_etl_pipeline, h1, h2, h3]
          | some ldf => simp only [execute_etl_pipeline, h1, h2, h3]
  · intro toIso now toDT raw e ddl toSql h
    cases raw with
    | none => rfl
    | some rdf =>
      cases h1 : transform_job_dataframe toIso now (some rdf) with
      | none => simp only [execute_etl_pipeline, h1]
      | some tdf =>
        cases h2 : apply_keyword_analysis (some tdf) with
        | none => simp only [execute_etl_pipeline, h1, h2]
        | some kdf =>
          cases h3 : prepare_job_data_for_loading toDT (some kdf) with
          | none => simp only [execute_etl_pipeline, h1, h2, h3]
          | some ldf =>
            simp only [execute_etl_pipeline, h1, h2, h3, create_jobs_table, h,
              Bool.false_eq_true, if_false]
  · intro toIso now toDT rdf tdf kdf ldf e ddl toSql h1 h2 h3 h4
    simp only [execute_etl_pipeline, h1, h2, h3, create_jobs_table, h4, if_true]

/-- C6 witness: a run whose table-creation step fails reports zero records. -/
theorem execute_etl_short_circuit_witness :
    execute_etl_pipeline (fun c => c) "t" (fun c => c) none (some ⟨0⟩)
      (fun _ => false) (fun _ _ => true) = 0 :=
  execute_etl_short_circuit.2.2.2.2.1 (fun c => c) "t" (fun c => c) none ⟨0⟩
    (fun _ => false) (fun _ _ => true) rfl

/-- C8 witness: a one-row frame with a cleaned description. -/
theorem apply_keyword_analysis_pure_witness :
    ∃ r, apply_keyword_analysis
        (some ⟨[("description_clean", [Cell.str "python et aws"])]⟩) = some r ∧
      getCol r "extracted_keywords" = some (kwCells [Cell.str "python et aws"]) := by
  obtain ⟨r, h1, -, h3, -, -⟩ := apply_keyword_analysis_pure.2.2.2
    ⟨[("description_clean", [Cell.str "python et aws"])]⟩ [Cell.str "python et aws"] rfl
  exact ⟨r, h1, h3⟩

end ETL
